import Mathlib

/-!
Verification of the orders-dashboard ETL and KPI pipeline.

The development shallowly embeds the two core modules:
  * `DataWarehouse.transform_and_load` (src/data_warehouse.py): concatenation of
    the web/app order sources, recency deduplication, left joins against the
    items and channels tables, and derivation of `line_total`.
  * `KPIAnalyzer` (src/kpi_analyzer.py): the five-metric computation,
    the two aggregate series, and the `filter` operation.

Tabular data is modelled as typed row lists.  pandas column presence is
modelled explicitly: a dataframe value carries flags recording which of the
optional columns (`updated_at`, `sku`, `channel_name`, `order_date`) exist,
and an operation that would index a missing column (a Python `KeyError`)
returns `none`.  Nullable cells (`NaN`/`NaT` after a left join) are `Option`
values; sums skip `none` exactly as pandas sums skip `NaN`, and arithmetic on
`none` propagates `none` as `NaN` does.  Numeric cells are idealised as exact
rationals / integers.  `sort_values` and the sorted group keys produced by
`groupby` are modelled with a stable comparison sort.
-/

namespace Orders

/-- One order-header row.  `updated_at` is the nullable recency timestamp
(`none` = `NaT`).  `line_total` models a `line_total`-like column that may
already be present in the raw input (`none` when the raw source has no such
value); the reconciler must never let it survive. -/
structure OrderRow where
  order_id : Int
  channel_id : Int
  order_date : Int
  status : String
  updated_at : Option Int
  line_total : Option ℚ
deriving Repr, DecidableEq

/-- One order-line row of the items table. -/
structure ItemRow where
  order_id : Int
  sku : String
  quantity : Int
  unit_price : ℚ
deriving Repr, DecidableEq

/-- One row of the channels dimension table. -/
structure ChannelRow where
  channel_id : Int
  channel_name : String
deriving Repr, DecidableEq

/-- An order-header source dataframe: its rows plus whether the
`updated_at` column exists in this source. -/
structure OrdersSrc where
  rows : List OrderRow
  hasUpdatedAt : Bool
deriving Repr, DecidableEq

/-- A row of the reconciled order-line dataset.  Item and channel cells are
nullable because they come from left joins. -/
structure ReconRow where
  order_id : Int
  channel_id : Int
  order_date : Int
  status : String
  updated_at : Option Int
  sku : Option String
  quantity : Option Int
  unit_price : Option ℚ
  channel_name : Option String
  line_total : Option ℚ
deriving Repr, DecidableEq

/-- The reconciled dataframe: rows plus column-presence flags for the
columns that are only sometimes created (`sku` and `channel_name` appear
only when the corresponding join ran; `order_date` is absent on the
column-less `pd.DataFrame()` that `DataWarehouse.__init__` installs). -/
structure ReconDF where
  rows : List ReconRow
  hasSku : Bool
  hasChannelName : Bool
  hasOrderDate : Bool
deriving Repr, DecidableEq

/-- The empty `pd.DataFrame()`: no rows and no columns. -/
def emptyDF : ReconDF := ⟨[], false, false, false⟩

/-- Descending comparison on nullable timestamps, as
`sort_values('updated_at', ascending=False)` orders cells: larger
timestamps first, `NaT` (`none`) last. -/
def uGe : Option Int → Option Int → Bool
  | some a, some b => b ≤ a
  | some _, none => true
  | none, some _ => false
  | none, none => true

/-- The row ordering used by the dedup sort. -/
def updGe (a b : OrderRow) : Prop := uGe a.updated_at b.updated_at = true

instance : DecidableRel updGe := fun a b =>
  inferInstanceAs (Decidable (_ = true))

instance : IsTotal OrderRow updGe :=
  ⟨fun a b => by
    unfold updGe uGe
    rcases a.updated_at with _ | x <;> rcases b.updated_at with _ | y <;> simp <;> omega⟩

instance : IsTrans OrderRow updGe :=
  ⟨fun a b c => by
    unfold updGe uGe
    rcases a.updated_at with _ | x <;> rcases b.updated_at with _ | y <;>
      rcases c.updated_at with _ | z <;> simp <;> omega⟩

/-- Model of `drop_duplicates(subset=[...], keep='first')`: keep the first row for
each key, preserving order.  `seen` accumulates the keys already kept. -/
def dedupByAux {α β : Type} [DecidableEq β] (key : α → β) (seen : List β) :
    List α → List α
  | [] => []
  | x :: xs =>
    if key x ∈ seen then dedupByAux key seen xs
    else x :: dedupByAux key (key x :: seen) xs

/-- Keep the first row per key value. -/
def dedupBy {α β : Type} [DecidableEq β] (key : α → β) (l : List α) : List α :=
  dedupByAux key [] l

/-- NaN-propagating product of a nullable quantity and a nullable price. -/
def omulQ : Option Int → Option ℚ → Option ℚ
  | some q, some p => some ((q : ℚ) * p)
  | _, _ => none

/-- pandas sum over a nullable rational column: `NaN` cells are skipped. -/
def osumQ (l : List (Option ℚ)) : ℚ := (l.filterMap id).sum

/-- pandas sum over a nullable integer column: `NaN` cells are skipped. -/
def osumZ (l : List (Option Int)) : Int := (l.filterMap id).sum

/-! ## Reconciler (DataWarehouse.transform_and_load) -/

/-- Model of `valid_sources = [df for df in [web_df, app_df] if not df.empty]`. -/
def validSources (web app : OrdersSrc) : List OrdersSrc :=
  [web, app].filter (fun s => !s.rows.isEmpty)

/-- Model of `raw_orders = pd.concat(valid_sources, ignore_index=True)`. -/
def rawOrders (web app : OrdersSrc) : List OrderRow :=
  ((validSources web app).map OrdersSrc.rows).flatten

/-- The check `'updated_at' in raw_orders.columns`: the concatenation has the column
iff some concatenated source has it. -/
def rawHasUpdatedAt (web app : OrdersSrc) : Bool :=
  (validSources web app).any OrdersSrc.hasUpdatedAt

/-- Steps 1–2 of `transform_and_load`: concatenate, sort by `updated_at`
descending when that column exists, then `drop_duplicates` on `order_id`
keeping the first row. -/
def dedupedOrders (web app : OrdersSrc) : List OrderRow :=
  let raw := rawOrders web app
  let sorted := if rawHasUpdatedAt web app then List.insertionSort updGe raw else raw
  dedupBy (fun o => o.order_id) sorted

/-- Widen an order-header row to the reconciled shape: joined cells start
null and a raw `line_total`-like column is carried through as-is. -/
def orderToRecon (o : OrderRow) : ReconRow :=
  { order_id := o.order_id, channel_id := o.channel_id,
    order_date := o.order_date, status := o.status,
    updated_at := o.updated_at, sku := none, quantity := none,
    unit_price := none, channel_name := none, line_total := o.line_total }

/-- Model of `orders.merge(items_df, on='order_id', how='left')`: every order row is
paired with each matching item row, or kept once with null item cells when
no item matches. -/
def joinItems (orders : List OrderRow) (items : List ItemRow) : List ReconRow :=
  orders.flatMap (fun o =>
    let ms := items.filter (fun it => it.order_id == o.order_id)
    if ms.isEmpty then [orderToRecon o]
    else ms.map (fun it =>
      { orderToRecon o with
          sku := some it.sku
          quantity := some it.quantity
          unit_price := some it.unit_price }))

/-- Model of `full_data.merge(channels_df, on='channel_id', how='left')`. -/
def joinChannels (rows : List ReconRow) (channels : List ChannelRow) :
    List ReconRow :=
  rows.flatMap (fun r =>
    let ms := channels.filter (fun c => c.channel_id == r.channel_id)
    if ms.isEmpty then [r]
    else ms.map (fun c => { r with channel_name := some c.channel_name }))

/-- Step 3 of `transform_and_load` (`full_data` after the items join): join
the items table when it is nonempty, otherwise keep the order rows and set
the `quantity` and `unit_price` columns to `0`. -/
def joinedStage (web app : OrdersSrc) (items : List ItemRow) : List ReconRow :=
  if !items.isEmpty then joinItems (dedupedOrders web app) items
  else (dedupedOrders web app).map (fun o =>
    { orderToRecon o with quantity := some 0, unit_price := some 0 })

/-- Step 4 of `transform_and_load`: join the channels table when it is
nonempty. -/
def withChanStage (web app : OrdersSrc) (items : List ItemRow)
    (channels : List ChannelRow) : List ReconRow :=
  if !channels.isEmpty then joinChannels (joinedStage web app items) channels
  else joinedStage web app items

/-- Step 5 of `transform_and_load`:
`full_data['line_total'] = full_data['quantity'] * full_data['unit_price']`. -/
def finalRows (web app : OrdersSrc) (items : List ItemRow)
    (channels : List ChannelRow) : List ReconRow :=
  (withChanStage web app items channels).map (fun r =>
    { r with line_total := omulQ r.quantity r.unit_price })

/-- Model of `DataWarehouse.transform_and_load` on a fresh warehouse: returns the
resulting `merged_data`.  When both order-header sources are empty the
method returns early, leaving `merged_data` as the column-less
`pd.DataFrame()` from `__init__`. -/
def transform_and_load (web app : OrdersSrc) (items : List ItemRow)
    (channels : List ChannelRow) : ReconDF :=
  if (validSources web app).isEmpty then emptyDF
  else ⟨finalRows web app items channels, !items.isEmpty, !channels.isEmpty, true⟩

/-! ## KPI engine (KPIAnalyzer) -/

/-- The `groupby` key order on integer keys: distinct keys, sorted ascending. -/
def sortedKeysInt (l : List Int) : List Int :=
  List.insertionSort (· ≤ ·) (dedupBy id l)

/-- The `groupby` key order on string keys: distinct keys, sorted ascending. -/
def sortedKeysStr (l : List String) : List String :=
  List.insertionSort (· ≤ ·) (dedupBy id l)

/-- Per-order `line_total` sum within a row list (`groupby('order_id')
['line_total'].sum()` for one key). -/
def groupSumLineTotal (rows : List ReconRow) (oid : Int) : ℚ :=
  osumQ ((rows.filter (fun r => r.order_id == oid)).map ReconRow.line_total)

/-- Mean of a rational list (division by zero yields zero, matching the
use sites where the list is nonempty). -/
def mean (l : List ℚ) : ℚ := l.sum / l.length

/-- Model of `df.groupby('sku')['quantity'].sum()`: one `(sku, summed quantity)` pair
per non-null sku, keys ascending; null-sku rows are dropped as pandas drops
NaN group keys. -/
def skuTable (rows : List ReconRow) : List (String × Int) :=
  (sortedKeysStr (rows.filterMap ReconRow.sku)).map
    (fun s => (s, osumZ ((rows.filter (fun r => r.sku == some s)).map
      ReconRow.quantity)))

/-- Descending order on the summed quantities, for
`.sort_values(ascending=False)`. -/
def skuGe (a b : String × Int) : Prop := b.2 ≤ a.2

instance : DecidableRel skuGe := fun a b =>
  inferInstanceAs (Decidable (_ ≤ _))

instance : IsTotal (String × Int) skuGe :=
  ⟨fun a b => by unfold skuGe; omega⟩

instance : IsTrans (String × Int) skuGe :=
  ⟨fun a b c => by unfold skuGe; omega⟩

/-- The sku table sorted by summed quantity descending. -/
def sortedSkuTable (rows : List ReconRow) : List (String × Int) :=
  List.insertionSort skuGe (skuTable rows)

/-- The label `top_sku.index[0]` followed by `top_sku.iloc[0]` in parentheses. -/
def mkSkuLabel (s : String) (q : Int) : String :=
  s ++ " (" ++ toString q ++ ")"

/-- The analyzer wraps one reconciled dataframe. -/
structure KPIAnalyzer where
  df : ReconDF
deriving Repr, DecidableEq

/-- Model of `KPIAnalyzer.get_metrics`: the tuple
`(revenue, return_rate, aov, cancel_rate, best_sku)`. -/
def get_metrics (a : KPIAnalyzer) : ℚ × ℚ × ℚ × ℚ × String :=
  if a.df.rows.isEmpty then (0, 0, 0, 0, "N/A")
  else
    let rows := a.df.rows
    let valid := rows.filter (fun r => r.status == "completed")
    let rev := osumQ (valid.map ReconRow.line_total)
    let aov :=
      if !valid.isEmpty then
        mean ((sortedKeysInt (valid.map ReconRow.order_id)).map
          (groupSumLineTotal valid))
      else 0
    let total_qty := osumZ (rows.map ReconRow.quantity)
    let ret_qty := osumZ ((rows.filter (fun r => r.status == "returned")).map
      ReconRow.quantity)
    let ret_rate := if 0 < total_qty then (ret_qty : ℚ) / (total_qty : ℚ) * 100 else 0
    let uniq := dedupBy (fun r : ReconRow => r.order_id) rows
    let cancel_rate :=
      if 0 < uniq.length then
        ((uniq.filter (fun r => r.status == "cancelled")).length : ℚ) /
          (uniq.length : ℚ) * 100
      else 0
    let best_sku :=
      if a.df.hasSku then
        match sortedSkuTable rows with
        | [] => "N/A"
        | p :: _ => mkSkuLabel p.1 p.2
      else "N/A"
    (rev, ret_rate, aov, cancel_rate, best_sku)

/-- Per-date `line_total` sum over the completed rows. -/
def dailySum (rows : List ReconRow) (d : Int) : ℚ :=
  let valid := rows.filter (fun r => r.status == "completed")
  osumQ ((valid.filter (fun r => r.order_date == d)).map ReconRow.line_total)

/-- Model of `KPIAnalyzer.get_daily_revenue`; `none` models the `KeyError` raised
when a nonempty frame lacks the `order_date` column. -/
def get_daily_revenue (a : KPIAnalyzer) : Option (List (Int × ℚ)) :=
  if a.df.rows.isEmpty then some []
  else if a.df.hasOrderDate then
    let valid := a.df.rows.filter (fun r => r.status == "completed")
    some ((sortedKeysInt (valid.map ReconRow.order_date)).map
      (fun d => (d, dailySum a.df.rows d)))
  else none

/-- Per-channel `line_total` sum over the completed rows (null channel
names are dropped, as pandas drops NaN group keys). -/
def channelSum (rows : List ReconRow) (c : String) : ℚ :=
  let valid := rows.filter (fun r => r.status == "completed")
  osumQ ((valid.filter (fun r => r.channel_name == some c)).map
    ReconRow.line_total)

/-- Model of `KPIAnalyzer.get_channel_dist`; `none` models the `KeyError` raised
when a nonempty frame lacks the `channel_name` column. -/
def get_channel_dist (a : KPIAnalyzer) : Option (List (String × ℚ)) :=
  if a.df.rows.isEmpty then some []
  else if a.df.hasChannelName then
    let valid := a.df.rows.filter (fun r => r.status == "completed")
    some ((sortedKeysStr (valid.filterMap ReconRow.channel_name)).map
      (fun c => (c, channelSum a.df.rows c)))
  else none

/-- Model of `temp = temp[temp['channel_name'] == channel]` when a channel other
than the sentinel `'All'` is requested; indexing the missing column is a
`KeyError` (`none`). -/
def applyChannelFilter (df : ReconDF) (channel : String) : Option ReconDF :=
  if channel = "All" then some df
  else if df.hasChannelName then
    some { df with rows := df.rows.filter (fun r => r.channel_name == some channel) }
  else none

/-- Model of the date-range mask on `temp['order_date'].dt.date`, applied
when the range has exactly two endpoints. -/
def applyDateFilter (df : ReconDF) (date_range : List Int) : Option ReconDF :=
  match date_range with
  | [s, e] =>
    if df.hasOrderDate then
      some { df with
        rows := df.rows.filter
          (fun r => decide (s ≤ r.order_date) && decide (r.order_date ≤ e)) }
    else none
  | _ => some df

/-- The dataframe part of `KPIAnalyzer.filter`: copy, channel predicate,
then date predicate. -/
def filterDF (df : ReconDF) (channel : String) (date_range : List Int) :
    Option ReconDF :=
  (applyChannelFilter df channel).bind (fun t => applyDateFilter t date_range)

/-- Model of `KPIAnalyzer.filter`: returns a new analyzer wrapping the filtered
copy (or `none` when pandas would raise a `KeyError`). -/
def KPIAnalyzer.filter (a : KPIAnalyzer) (channel : String)
    (date_range : List Int) : Option KPIAnalyzer :=
  (filterDF a.df channel date_range).map KPIAnalyzer.mk

/-! ## Object store

A small reference store makes the aliasing content of `filter` expressible:
each analyzer's dataframe lives at a reference, `filter` allocates a fresh
reference holding the filtered copy, and mutation is an explicit `write`. -/

/-- A heap of dataframe objects; a reference is an index. -/
structure Store where
  frames : List ReconDF
deriving Repr, DecidableEq

/-- Dereference (out-of-range reads default to the empty frame). -/
def Store.read (st : Store) (r : Nat) : ReconDF :=
  st.frames.getD r emptyDF

/-- In-place mutation of one object. -/
def Store.write (st : Store) (r : Nat) (df : ReconDF) : Store :=
  ⟨st.frames.set r df⟩

/-- Model of `KPIAnalyzer.filter` at the store level: read the receiver's frame,
build the filtered copy, allocate it at a fresh reference. -/
def filterAlloc (st : Store) (ref : Nat) (channel : String)
    (date_range : List Int) : Option (Store × Nat) :=
  (filterDF (st.read ref) channel date_range).map
    (fun df => (⟨st.frames ++ [df]⟩, st.frames.length))

/-! ## Spec-side definitions

These follow the spec's wording directly and are compared with the code
definitions above in the refinement claims. -/

/-- Spec wording for `avg_order_value`: the mean, over the distinct
`order_id`s occurring among the completed rows, of the per-order sum of
`line_total`. -/
def aovSpec (df : ReconDF) : ℚ :=
  let valid := df.rows.filter (fun r => r.status == "completed")
  let oids := dedupBy id (valid.map ReconRow.order_id)
  mean (oids.map (groupSumLineTotal valid))

/-- Spec wording for `cancel_rate`: over order-grain rows (one surviving
row per distinct `order_id`, the first occurrence), the share of distinct
orders whose surviving row is cancelled, times 100; 0 with no orders. -/
def cancelRateSpec (df : ReconDF) : ℚ :=
  let oids := dedupBy id (df.rows.map ReconRow.order_id)
  let cancelled := oids.filter (fun oid =>
    match df.rows.find? (fun r => r.order_id == oid) with
    | some r => r.status == "cancelled"
    | none => false)
  if oids.length = 0 then 0
  else (cancelled.length : ℚ) / (oids.length : ℚ) * 100

/-- The order-header fields of a reconciled row. -/
def headerOf (r : ReconRow) : Int × Int × Int × String × Option Int :=
  (r.order_id, r.channel_id, r.order_date, r.status, r.updated_at)

/-- The header fields of an order-header row, in the same shape. -/
def oHeader (o : OrderRow) : Int × Int × Int × String × Option Int :=
  (o.order_id, o.channel_id, o.order_date, o.status, o.updated_at)

/-! ## Deduplication lemmas -/

theorem mem_of_mem_dedupByAux {α β : Type} [DecidableEq β] {key : α → β}
    {seen : List β} {l : List α} {r : α} (h : r ∈ dedupByAux key seen l) :
    r ∈ l := by
  induction l generalizing seen with
  | nil => simpa [dedupByAux] using h
  | cons x xs ih =>
    by_cases hx : key x ∈ seen
    · simp only [dedupByAux, if_pos hx] at h
      exact List.mem_cons_of_mem _ (ih h)
    · simp only [dedupByAux, if_neg hx] at h
      rcases List.mem_cons.mp h with h | h
      · exact h ▸ List.mem_cons_self x xs
      · exact List.mem_cons_of_mem _ (ih h)

theorem key_not_seen_of_mem_dedupByAux {α β : Type} [DecidableEq β]
    {key : α → β} {seen : List β} {l : List α} {r : α}
    (h : r ∈ dedupByAux key seen l) : key r ∉ seen := by
  induction l generalizing seen with
  | nil => simp [dedupByAux] at h
  | cons x xs ih =>
    by_cases hx : key x ∈ seen
    · simp only [dedupByAux, if_pos hx] at h
      exact ih h
    · simp only [dedupByAux, if_neg hx] at h
      rcases List.mem_cons.mp h with h | h
      · exact h ▸ hx
      · intro hs
        exact ih h (List.mem_cons_of_mem _ hs)

theorem find?_of_mem_dedupByAux {α β : Type} [DecidableEq β] [BEq β]
    [LawfulBEq β] {key : α → β} {seen : List β} {l : List α} {r : α}
    (h : r ∈ dedupByAux key seen l) :
    l.find? (fun y => key y == key r) = some r := by
  induction l generalizing seen with
  | nil => simp [dedupByAux] at h
  | cons x xs ih =>
    by_cases hx : key x ∈ seen
    · simp only [dedupByAux, if_pos hx] at h
      have hne : ¬ key x = key r := by
        intro he
        exact key_not_seen_of_mem_dedupByAux h (he ▸ hx)
      simp only [List.find?_cons]
      have : (key x == key r) = false := beq_eq_false_iff_ne.mpr hne
      rw [this]
      exact ih h
    · simp only [dedupByAux, if_neg hx] at h
      rcases List.mem_cons.mp h with h | h
      · subst h
        simp [List.find?_cons]
      · have hr : key r ∉ key x :: seen := key_not_seen_of_mem_dedupByAux h
        have hne : ¬ key x = key r := by
          intro he
          exact hr (he ▸ List.mem_cons_self _ _)
        simp only [List.find?_cons]
        have : (key x == key r) = false := beq_eq_false_iff_ne.mpr hne
        rw [this]
        exact ih h

theorem nodup_keys_dedupByAux {α β : Type} [DecidableEq β] (key : α → β)
    (seen : List β) (l : List α) :
    ((dedupByAux key seen l).map key).Nodup := by
  induction l generalizing seen with
  | nil => simp [dedupByAux]
  | cons x xs ih =>
    by_cases hx : key x ∈ seen
    · simpa only [dedupByAux, if_pos hx] using ih seen
    · simp only [dedupByAux, if_neg hx, List.map_cons, List.nodup_cons]
      refine ⟨?_, ih _⟩
      intro hmem
      rcases List.mem_map.mp hmem with ⟨y, hy, hk⟩
      exact key_not_seen_of_mem_dedupByAux hy (hk ▸ List.mem_cons_self _ _)

theorem key_mem_dedupByAux {α β : Type} [DecidableEq β] {key : α → β}
    {seen : List β} {l : List α} {k : β} (h : k ∈ l.map key) (hs : k ∉ seen) :
    k ∈ (dedupByAux key seen l).map key := by
  induction l generalizing seen with
  | nil => simp at h
  | cons x xs ih =>
    by_cases hx : key x ∈ seen
    · simp only [dedupByAux, if_pos hx]
      rcases List.mem_map.mp h with ⟨y, hy, hk⟩
      rcases List.mem_cons.mp hy with hy | hy
      · subst hy
        exact absurd (hk ▸ hx) hs
      · exact ih (List.mem_map.mpr ⟨y, hy, hk⟩) hs
    · simp only [dedupByAux, if_neg hx, List.map_cons]
      by_cases hk : k = key x
      · exact hk ▸ List.mem_cons_self _ _
      · rcases List.mem_map.mp h with ⟨y, hy, hky⟩
        rcases List.mem_cons.mp hy with hy | hy
        · subst hy
          exact absurd hky.symm hk
        · refine List.mem_cons_of_mem _ (ih (List.mem_map.mpr ⟨y, hy, hky⟩) ?_)
          intro hc
          rcases List.mem_cons.mp hc with hc | hc
          · exact hk hc
          · exact hs hc

theorem map_key_dedupByAux {α β : Type} [DecidableEq β] (key : α → β)
    (seen : List β) (l : List α) :
    (dedupByAux key seen l).map key = dedupByAux id seen (l.map key) := by
  induction l generalizing seen with
  | nil => simp [dedupByAux]
  | cons x xs ih =>
    by_cases hx : key x ∈ seen
    · simp only [dedupByAux, List.map_cons, if_pos hx, id]
      exact ih seen
    · simp only [dedupByAux, List.map_cons, if_neg hx, id]
      simp [ih]

theorem mem_of_mem_dedupBy {α β : Type} [DecidableEq β] {key : α → β}
    {l : List α} {r : α} (h : r ∈ dedupBy key l) : r ∈ l :=
  mem_of_mem_dedupByAux h

theorem find?_of_mem_dedupBy {α β : Type} [DecidableEq β] [BEq β]
    [LawfulBEq β] {key : α → β} {l : List α} {r : α} (h : r ∈ dedupBy key l) :
    l.find? (fun y => key y == key r) = some r :=
  find?_of_mem_dedupByAux h

theorem nodup_keys_dedupBy {α β : Type} [DecidableEq β] (key : α → β)
    (l : List α) : ((dedupBy key l).map key).Nodup :=
  nodup_keys_dedupByAux key [] l

theorem key_mem_dedupBy {α β : Type} [DecidableEq β] {key : α → β}
    {l : List α} {k : β} (h : k ∈ l.map key) :
    k ∈ (dedupBy key l).map key :=
  key_mem_dedupByAux h (by simp)

theorem map_key_dedupBy {α β : Type} [DecidableEq β] (key : α → β)
    (l : List α) : (dedupBy key l).map key = dedupBy id (l.map key) :=
  map_key_dedupByAux key [] l

theorem dedupBy_ne_nil {α β : Type} [DecidableEq β] (key : α → β) {l : List α}
    (h : l ≠ []) : dedupBy key l ≠ [] := by
  cases l with
  | nil => exact absurd rfl h
  | cons x xs => simp [dedupBy, dedupByAux]

/-! ## Nullable-sum and mean lemmas -/

theorem osumQ_cons_some (v : ℚ) (xs : List (Option ℚ)) :
    osumQ (some v :: xs) = v + osumQ xs := by
  simp [osumQ, List.filterMap_cons]

theorem osumQ_cons_none (xs : List (Option ℚ)) :
    osumQ (none :: xs) = osumQ xs := by
  simp [osumQ, List.filterMap_cons]

theorem osumQ_append (l1 l2 : List (Option ℚ)) :
    osumQ (l1 ++ l2) = osumQ l1 + osumQ l2 := by
  simp [osumQ, List.filterMap_append]

theorem osumZ_append (l1 l2 : List (Option Int)) :
    osumZ (l1 ++ l2) = osumZ l1 + osumZ l2 := by
  simp [osumZ, List.filterMap_append]

theorem osumQ_eq_zero {l : List (Option ℚ)}
    (h : ∀ x ∈ l, x = some 0 ∨ x = none) : osumQ l = 0 := by
  induction l with
  | nil => rfl
  | cons x xs ih =>
    have hx := h x (List.mem_cons_self _ _)
    have hxs := ih (fun y hy => h y (List.mem_cons_of_mem _ hy))
    rcases hx with hx | hx <;> subst hx
    · rw [osumQ_cons_some, hxs, add_zero]
    · rw [osumQ_cons_none, hxs]

theorem mean_perm {l l' : List ℚ} (h : l.Perm l') : mean l = mean l' := by
  simp [mean, h.sum_eq, h.length_eq]

theorem osumQ_nil : osumQ [] = 0 := rfl

theorem omulQ_none_left (y : Option ℚ) : omulQ none y = none := by
  cases y <;> rfl

theorem osumQ_filter_append_null (rows : List ReconRow) (x : ReconRow)
    (p : ReconRow → Bool) (hxl : x.line_total = none) :
    osumQ (((rows ++ [x]).filter p).map ReconRow.line_total) =
      osumQ ((rows.filter p).map ReconRow.line_total) := by
  rw [List.filter_append, List.map_append, osumQ_append]
  rcases hpx : p x
  · simp [List.filter_cons, hpx, osumQ_nil]
  · simp [List.filter_cons, hpx, hxl, osumQ_cons_none, osumQ_nil]

theorem osumZ_nil : osumZ [] = 0 := rfl

theorem osumZ_cons_none (xs : List (Option Int)) :
    osumZ (none :: xs) = osumZ xs := by
  simp [osumZ, List.filterMap_cons]

theorem osumZ_filter_append_null (rows : List ReconRow) (x : ReconRow)
    (p : ReconRow → Bool) (hxq : x.quantity = none) :
    osumZ (((rows ++ [x]).filter p).map ReconRow.quantity) =
      osumZ ((rows.filter p).map ReconRow.quantity) := by
  rw [List.filter_append, List.map_append, osumZ_append]
  rcases hpx : p x
  · simp [List.filter_cons, hpx, osumZ_nil]
  · simp [List.filter_cons, hpx, hxq, osumZ_cons_none, osumZ_nil]

theorem osumZ_map_append_null (rows : List ReconRow) (x : ReconRow)
    (hxq : x.quantity = none) :
    osumZ ((rows ++ [x]).map ReconRow.quantity) =
      osumZ (rows.map ReconRow.quantity) := by
  rw [List.map_append, osumZ_append]
  simp [hxq, osumZ_cons_none, osumZ_nil]

/-! ## Join lemmas -/

theorem mem_joinChannels {rows : List ReconRow} {chans : List ChannelRow}
    {r' : ReconRow} (h : r' ∈ joinChannels rows chans) :
    ∃ r ∈ rows, r' = { r with channel_name := r'.channel_name } := by
  rcases List.mem_flatMap.mp h with ⟨r, hr, hmem⟩
  refine ⟨r, hr, ?_⟩
  by_cases he : (chans.filter (fun c => c.channel_id == r.channel_id)).isEmpty
  · simp only [he, if_pos] at hmem
    rcases List.mem_singleton.mp hmem with rfl
    rfl
  · simp only [he, if_neg, Bool.false_eq_true, not_false_eq_true] at hmem
    rcases List.mem_map.mp hmem with ⟨c, _, hc⟩
    subst hc
    rfl

theorem joinChannels_exists {rows : List ReconRow} (chans : List ChannelRow)
    {r : ReconRow} (hr : r ∈ rows) :
    ∃ r' ∈ joinChannels rows chans,
      r' = { r with channel_name := r'.channel_name } := by
  rcases he : chans.filter (fun c => c.channel_id == r.channel_id) with _ | ⟨c, cs⟩
  · refine ⟨r, List.mem_flatMap.mpr ⟨r, hr, ?_⟩, rfl⟩
    simp [he]
  · refine ⟨{ r with channel_name := some c.channel_name },
      List.mem_flatMap.mpr ⟨r, hr, ?_⟩, rfl⟩
    simp only [he]
    exact List.mem_map.mpr ⟨c, List.mem_cons_self _ _, rfl⟩

theorem mem_joinItems {orders : List OrderRow} {items : List ItemRow}
    {r : ReconRow} (h : r ∈ joinItems orders items) :
    ∃ o ∈ orders,
      (r = orderToRecon o ∧
        items.filter (fun it => it.order_id == o.order_id) = []) ∨
      ∃ it ∈ items.filter (fun it => it.order_id == o.order_id),
        r = { orderToRecon o with
                sku := some it.sku
                quantity := some it.quantity
                unit_price := some it.unit_price } := by
  rcases List.mem_flatMap.mp h with ⟨o, ho, hmem⟩
  refine ⟨o, ho, ?_⟩
  rcases he : items.filter (fun it => it.order_id == o.order_id) with _ | ⟨it, its⟩
  · simp only [he, List.isEmpty_nil, if_pos] at hmem
    exact Or.inl ⟨(List.mem_singleton.mp hmem), he⟩
  · right
    rw [he]
    simp only [he, List.isEmpty_cons, Bool.false_eq_true, if_neg,
      not_false_eq_true] at hmem
    rcases List.mem_map.mp hmem with ⟨it', hit', hr⟩
    exact ⟨it', hit', hr.symm⟩

theorem joinItems_exists_unmatched {orders : List OrderRow}
    {items : List ItemRow} {o : OrderRow} (ho : o ∈ orders)
    (hm : items.filter (fun it => it.order_id == o.order_id) = []) :
    orderToRecon o ∈ joinItems orders items := by
  refine List.mem_flatMap.mpr ⟨o, ho, ?_⟩
  simp [hm]

/-! ## Pipeline provenance lemmas -/

theorem mem_withChanStage {web app : OrdersSrc} {items : List ItemRow}
    {channels : List ChannelRow} {w : ReconRow}
    (h : w ∈ withChanStage web app items channels) :
    ∃ j ∈ joinedStage web app items,
      w = { j with channel_name := w.channel_name } := by
  unfold withChanStage at h
  rcases channels with _ | ⟨c, cs⟩
  · simp only [List.isEmpty_nil, Bool.not_true, Bool.false_eq_true, if_neg,
      not_false_eq_true] at h
    exact ⟨w, h, rfl⟩
  · simp only [List.isEmpty_cons, Bool.not_false, if_pos] at h
    exact mem_joinChannels h

theorem mem_joinedStage {web app : OrdersSrc} {items : List ItemRow}
    {j : ReconRow} (h : j ∈ joinedStage web app items) :
    ∃ o ∈ dedupedOrders web app, headerOf j = oHeader o ∧
      ((items = [] ∧
          j = { orderToRecon o with quantity := some 0, unit_price := some 0 }) ∨
       (items ≠ [] ∧ items.filter (fun it => it.order_id == o.order_id) = [] ∧
          j = orderToRecon o) ∨
       (∃ it ∈ items.filter (fun it => it.order_id == o.order_id),
          j = { orderToRecon o with
                  sku := some it.sku
                  quantity := some it.quantity
                  unit_price := some it.unit_price })) := by
  unfold joinedStage at h
  rcases items with _ | ⟨it0, its⟩
  · simp only [List.isEmpty_nil, Bool.not_true, Bool.false_eq_true, if_neg,
      not_false_eq_true] at h
    rcases List.mem_map.mp h with ⟨o, ho, hj⟩
    exact ⟨o, ho, by subst hj; rfl, Or.inl ⟨rfl, hj.symm⟩⟩
  · simp only [List.isEmpty_cons, Bool.not_false, if_pos] at h
    rcases mem_joinItems h with ⟨o, ho, hcase⟩
    rcases hcase with ⟨hj, hfil⟩ | ⟨it, hit, hj⟩
    · exact ⟨o, ho, by subst hj; rfl, Or.inr (Or.inl ⟨by simp, hfil, hj⟩)⟩
    · exact ⟨o, ho, by subst hj; rfl, Or.inr (Or.inr ⟨it, hit, hj⟩)⟩

/-- Every reconciled output row comes from exactly one deduplicated order
header, carries that header's fields, has its `line_total` recomputed from
its joined `quantity` and `unit_price`, and its item cells are zero
(items table empty), null (no matching item), or a matching item's
values. -/
theorem finalRows_provenance {web app : OrdersSrc} {items : List ItemRow}
    {channels : List ChannelRow} {r : ReconRow}
    (h : r ∈ finalRows web app items channels) :
    ∃ o ∈ dedupedOrders web app, headerOf r = oHeader o ∧
      r.line_total = omulQ r.quantity r.unit_price ∧
      ((items = [] ∧ r.quantity = some 0 ∧ r.unit_price = some 0) ∨
       (items ≠ [] ∧ items.filter (fun it => it.order_id == o.order_id) = [] ∧
          r.quantity = none ∧ r.unit_price = none ∧ r.sku = none) ∨
       (∃ it ∈ items.filter (fun it => it.order_id == o.order_id),
          r.quantity = some it.quantity ∧ r.unit_price = some it.unit_price ∧
          r.sku = some it.sku)) := by
  rcases List.mem_map.mp h with ⟨w, hw, hr⟩
  rcases mem_withChanStage hw with ⟨j, hj, hwj⟩
  rcases mem_joinedStage hj with ⟨o, ho, hhead, hcase⟩
  have hq : w.quantity = j.quantity := by rw [hwj]
  have hp : w.unit_price = j.unit_price := by rw [hwj]
  have hsk : w.sku = j.sku := by rw [hwj]
  have hh : headerOf w = headerOf j := by rw [hwj]; rfl
  subst hr
  refine ⟨o, ho, hh.trans hhead, rfl, ?_⟩
  rcases hcase with ⟨hi, hj0⟩ | ⟨hi, hfil, hj0⟩ | ⟨it, hit, hj0⟩
  · refine Or.inl ⟨hi, ?_, ?_⟩
    · show w.quantity = some 0
      rw [hq, hj0]
    · show w.unit_price = some 0
      rw [hp, hj0]
  · refine Or.inr (Or.inl ⟨hi, hfil, ?_, ?_, ?_⟩)
    · show w.quantity = none
      rw [hq, hj0]
      rfl
    · show w.unit_price = none
      rw [hp, hj0]
      rfl
    · show w.sku = none
      rw [hsk, hj0]
      rfl
  · refine Or.inr (Or.inr ⟨it, hit, ?_, ?_, ?_⟩)
    · show w.quantity = some it.quantity
      rw [hq, hj0]
    · show w.unit_price = some it.unit_price
      rw [hp, hj0]
    · show w.sku = some it.sku
      rw [hsk, hj0]

theorem finalRows_exists_of_order {web app : OrdersSrc} {items : List ItemRow}
    {channels : List ChannelRow} {o : OrderRow}
    (ho : o ∈ dedupedOrders web app) :
    ∃ r ∈ finalRows web app items channels, r.order_id = o.order_id := by
  have hj : ∃ j ∈ joinedStage web app items, j.order_id = o.order_id := by
    unfold joinedStage
    rcases items with _ | ⟨it0, its⟩
    · simp only [List.isEmpty_nil, Bool.not_true, Bool.false_eq_true, if_neg,
        not_false_eq_true]
      exact ⟨_, List.mem_map.mpr ⟨o, ho, rfl⟩, rfl⟩
    · simp only [List.isEmpty_cons, Bool.not_false, if_pos]
      rcases he : (it0 :: its).filter (fun it => it.order_id == o.order_id)
        with _ | ⟨it, its'⟩
      · exact ⟨orderToRecon o, joinItems_exists_unmatched ho he, rfl⟩
      · refine ⟨{ orderToRecon o with
            sku := some it.sku
            quantity := some it.quantity
            unit_price := some it.unit_price },
          List.mem_flatMap.mpr ⟨o, ho, ?_⟩, rfl⟩
        rw [he]
        simp only [List.isEmpty_cons, Bool.false_eq_true, if_neg,
          not_false_eq_true]
        exact List.mem_map.mpr ⟨it, List.mem_cons_self _ _, rfl⟩
  rcases hj with ⟨j, hj, hoid⟩
  have hw : ∃ w ∈ withChanStage web app items channels,
      w.order_id = o.order_id := by
    unfold withChanStage
    rcases channels with _ | ⟨c, cs⟩
    · simp only [List.isEmpty_nil, Bool.not_true, Bool.false_eq_true, if_neg,
        not_false_eq_true]
      exact ⟨j, hj, hoid⟩
    · simp only [List.isEmpty_cons, Bool.not_false, if_pos]
      rcases joinChannels_exists (c :: cs) hj with ⟨w, hw, hwe⟩
      refine ⟨w, hw, ?_⟩
      rw [hwe]
      exact hoid
  rcases hw with ⟨w, hw, hwid⟩
  exact ⟨_, List.mem_map.mpr ⟨w, hw, rfl⟩, hwid⟩

/-- In a pairwise-ordered list, the first element satisfying a predicate is
related to every element satisfying it. -/
theorem find?_rel_of_pairwise {α : Type} {R : α → α → Prop} {p : α → Bool}
    {l : List α} {r : α} (hp : l.Pairwise R) (hf : l.find? p = some r) :
    ∀ r' ∈ l, p r' = true → r' = r ∨ R r r' := by
  induction l with
  | nil => simp at hf
  | cons x xs ih =>
    rcases List.pairwise_cons.mp hp with ⟨hx, hxs⟩
    intro r' hr' hpr'
    rw [List.find?_cons] at hf
    by_cases hpx : p x = true
    · rw [hpx] at hf
      simp only [Option.some.injEq] at hf
      subst hf
      rcases List.mem_cons.mp hr' with h | h
      · exact Or.inl h
      · exact Or.inr (hx _ h)
    · rw [Bool.of_not_eq_true hpx] at hf
      rcases List.mem_cons.mp hr' with h | h
      · exact absurd (h ▸ hpr') hpx
      · exact ih hxs hf r' h hpr'

theorem uGe_refl (x : Option Int) : uGe x x = true := by
  cases x <;> simp [uGe]

/-- Steps 1–2 of the reconciler, written out. -/
theorem dedupedOrders_eq (web app : OrdersSrc) :
    dedupedOrders web app =
      dedupBy (fun o => o.order_id)
        (if rawHasUpdatedAt web app then
          List.insertionSort updGe (rawOrders web app)
        else rawOrders web app) := rfl

/-- The sorted-or-not union is a permutation of the concatenated sources. -/
theorem sortedRaw_perm (web app : OrdersSrc) :
    (if rawHasUpdatedAt web app then
        List.insertionSort updGe (rawOrders web app)
      else rawOrders web app).Perm (rawOrders web app) := by
  by_cases hU : rawHasUpdatedAt web app
  · rw [if_pos hU]
    exact List.perm_insertionSort updGe (rawOrders web app)
  · rw [if_neg hU]

/-! ## Witness fixture data

A small concrete run exercising recency dedup (order 1 appears in both
sources), an order with no matching item (order 3), and an order with no
matching channel (channel 9).  All string keys are chosen so that any
group-key list has at most one distinct value. -/

def wSrc : OrdersSrc :=
  ⟨[⟨1, 1, 10, "completed", some 5, none⟩,
    ⟨2, 2, 11, "cancelled", some 6, some 99⟩], true⟩

def aSrc : OrdersSrc :=
  ⟨[⟨1, 1, 10, "returned", some 7, none⟩,
    ⟨3, 9, 12, "completed", some 4, none⟩], true⟩

def wItems : List ItemRow := [⟨1, "SKU1", 2, 100⟩, ⟨2, "SKU1", 1, 50⟩]

def wChans : List ChannelRow := [⟨1, "Website"⟩, ⟨2, "Website"⟩]

def wSrcNC : OrdersSrc := ⟨[⟨1, 1, 10, "returned", some 5, none⟩], true⟩

def wRow1 : ReconRow :=
  ⟨1, 1, 10, "returned", some 7, some "SKU1", some 2, some 100,
    some "Website", some 200⟩

def wRow2 : ReconRow :=
  ⟨2, 2, 11, "cancelled", some 6, some "SKU1", some 1, some 50,
    some "Website", some 50⟩

def wRow3 : ReconRow :=
  ⟨3, 9, 12, "completed", some 4, none, none, none, none, none⟩

def wOrd3 : OrderRow := ⟨3, 9, 12, "completed", some 4, none⟩

theorem wRows_eq :
    (transform_and_load wSrc aSrc wItems wChans).rows =
      [wRow1, wRow2, wRow3] := by
  norm_num [transform_and_load, validSources, finalRows, withChanStage,
    joinedStage, dedupedOrders, rawOrders, rawHasUpdatedAt, dedupBy,
    dedupByAux, joinItems, joinChannels, orderToRecon, omulQ,
    List.insertionSort, List.orderedInsert, updGe, uGe, wSrc, aSrc, wItems,
    wChans, wRow1, wRow2, wRow3]

theorem wRow1_mem :
    wRow1 ∈ (transform_and_load wSrc aSrc wItems wChans).rows := by
  rw [wRows_eq]
  exact List.mem_cons_self _ _

theorem wRow3_mem :
    wRow3 ∈ (transform_and_load wSrc aSrc wItems wChans).rows := by
  rw [wRows_eq]
  exact List.mem_cons_of_mem _ (List.mem_cons_of_mem _ (List.mem_cons_self _ _))

/-! ## Claim theorems -/

/-- Claim C1: deduplication postcondition of reconcile.  The deduplicated
order-header stage has pairwise-distinct order ids covering exactly the
ids of the concatenated sources; when the `updated_at` column is present,
every survivor is one of the input rows of its id group whose `updated_at`
is maximal in that group (so its `status` and `channel_id` are that row's
fields); when the column is absent, every survivor is the first occurrence
of its id in concatenation order, source A preceding source B; and in the
reconciled output any two rows with the same order id carry the same
surviving header fields (one row-group per distinct order id). -/
theorem C1_dedup_postcondition (web app : OrdersSrc) :
    ((dedupedOrders web app).map OrderRow.order_id).Nodup ∧
    (∀ oid, oid ∈ (rawOrders web app).map OrderRow.order_id ↔
      oid ∈ (dedupedOrders web app).map OrderRow.order_id) ∧
    (rawHasUpdatedAt web app = true →
      ∀ r ∈ dedupedOrders web app, r ∈ rawOrders web app ∧
        ∀ r' ∈ rawOrders web app, r'.order_id = r.order_id →
          uGe r.updated_at r'.updated_at = true) ∧
    (rawHasUpdatedAt web app = false →
      ∀ r ∈ dedupedOrders web app,
        (rawOrders web app).find? (fun y => y.order_id == r.order_id) =
          some r) ∧
    (∀ items channels,
      ∀ r1 ∈ (transform_and_load web app items channels).rows,
      ∀ r2 ∈ (transform_and_load web app items channels).rows,
      r1.order_id = r2.order_id → headerOf r1 = headerOf r2) := by
  have hperm := sortedRaw_perm web app
  have hpermIds := hperm.map OrderRow.order_id
  have hnodup : ((dedupedOrders web app).map OrderRow.order_id).Nodup := by
    rw [dedupedOrders_eq]
    exact nodup_keys_dedupBy _ _
  refine ⟨hnodup, ?_, ?_, ?_, ?_⟩
  · intro oid
    constructor
    · intro h
      rw [dedupedOrders_eq]
      exact key_mem_dedupBy (hpermIds.mem_iff.mpr h)
    · intro h
      rw [dedupedOrders_eq] at h
      rcases List.mem_map.mp h with ⟨r, hr, hk⟩
      exact hk ▸ List.mem_map.mpr
        ⟨r, hperm.mem_iff.mp (mem_of_mem_dedupBy hr), rfl⟩
  · intro hU r hr
    rw [dedupedOrders_eq] at hr
    have hrs : r ∈ (if rawHasUpdatedAt web app then
        List.insertionSort updGe (rawOrders web app)
      else rawOrders web app) := mem_of_mem_dedupBy hr
    refine ⟨hperm.mem_iff.mp hrs, ?_⟩
    intro r' hr' hid
    have hfind := find?_of_mem_dedupBy hr
    rw [if_pos hU] at hfind hrs hr
    have hsorted : List.Sorted updGe
        (List.insertionSort updGe (rawOrders web app)) :=
      List.sorted_insertionSort updGe (rawOrders web app)
    have hr'mem : r' ∈ List.insertionSort updGe (rawOrders web app) :=
      (List.perm_insertionSort updGe (rawOrders web app)).mem_iff.mpr hr'
    have hp : (fun y => y.order_id == r.order_id) r' = true :=
      beq_iff_eq.mpr hid
    have := find?_rel_of_pairwise hsorted hfind r' hr'mem hp
    rcases this with h | h
    · rw [h]
      exact uGe_refl _
    · exact h
  · intro hU r hr
    rw [dedupedOrders_eq, if_neg (by simp [hU])] at hr
    exact find?_of_mem_dedupBy hr
  · intro items channels r1 h1 r2 h2 heq
    unfold transform_and_load at h1 h2
    by_cases hv : (validSources web app).isEmpty
    · rw [if_pos hv] at h1
      simp [emptyDF] at h1
    · rw [if_neg hv] at h1 h2
      rcases finalRows_provenance h1 with ⟨o1, ho1, hh1, -, -⟩
      rcases finalRows_provenance h2 with ⟨o2, ho2, hh2, -, -⟩
      have hid1 : r1.order_id = o1.order_id := congrArg Prod.fst hh1
      have hid2 : r2.order_id = o2.order_id := congrArg Prod.fst hh2
      have ho : o1.order_id = o2.order_id := by
        rw [← hid1, ← hid2, heq]
      have : o1 = o2 := List.inj_on_of_nodup_map hnodup ho1 ho2 ho
      rw [hh1, hh2, this]

theorem C1_dedup_postcondition_witness :
    rawHasUpdatedAt wSrc aSrc = true ∧
    (∀ r ∈ dedupedOrders wSrc aSrc, r ∈ rawOrders wSrc aSrc ∧
      ∀ r' ∈ rawOrders wSrc aSrc, r'.order_id = r.order_id →
        uGe r.updated_at r'.updated_at = true) :=
  ⟨by decide, (C1_dedup_postcondition wSrc aSrc).2.2.1 (by decide)⟩

theorem get_metrics_aov (a : KPIAnalyzer) (h : ¬ a.df.rows.isEmpty = true) :
    (get_metrics a).2.2.1 =
      if !(a.df.rows.filter (fun r => r.status == "completed")).isEmpty then
        mean ((sortedKeysInt
            ((a.df.rows.filter (fun r => r.status == "completed")).map
              ReconRow.order_id)).map
          (groupSumLineTotal
            (a.df.rows.filter (fun r => r.status == "completed"))))
      else 0 := by
  unfold get_metrics
  rw [if_neg h]

theorem get_metrics_cancel (a : KPIAnalyzer) (h : ¬ a.df.rows.isEmpty = true) :
    (get_metrics a).2.2.2.1 =
      if 0 < (dedupBy (fun r : ReconRow => r.order_id) a.df.rows).length then
        (((dedupBy (fun r : ReconRow => r.order_id) a.df.rows).filter
            (fun r => r.status == "cancelled")).length : ℚ) /
          ((dedupBy (fun r : ReconRow => r.order_id) a.df.rows).length : ℚ) *
          100
      else 0 := by
  unfold get_metrics
  rw [if_neg h]

/-- Claim C2: on a nonempty dataset, the `avg_order_value` metric is the
mean over distinct completed `order_id`s of the per-order `line_total`
sums (group by order first, then average across orders), and it is `0`
when there are no completed rows. -/
theorem C2_aov_group_mean (a : KPIAnalyzer) (h : a.df.rows ≠ []) :
    ((a.df.rows.filter (fun r => r.status == "completed")) ≠ [] →
      (get_metrics a).2.2.1 = aovSpec a.df) ∧
    ((a.df.rows.filter (fun r => r.status == "completed")) = [] →
      (get_metrics a).2.2.1 = 0) := by
  have hne : ¬ a.df.rows.isEmpty = true := by
    simpa [List.isEmpty_iff] using h
  rw [get_metrics_aov a hne]
  constructor
  · intro hv
    rw [if_pos (by simpa [List.isEmpty_iff] using hv)]
    have hspec : aovSpec a.df =
        mean ((dedupBy id
            ((a.df.rows.filter (fun r => r.status == "completed")).map
              ReconRow.order_id)).map
          (groupSumLineTotal
            (a.df.rows.filter (fun r => r.status == "completed")))) := rfl
    rw [hspec]
    exact mean_perm ((List.perm_insertionSort _ _).map _)
  · intro hv
    rw [if_neg (by simp [hv])]

theorem C2_aov_group_mean_witness :
    (transform_and_load wSrc aSrc wItems wChans).rows ≠ [] ∧
    (((transform_and_load wSrc aSrc wItems wChans).rows.filter
        (fun r => r.status == "completed")) ≠ [] →
      (get_metrics ⟨transform_and_load wSrc aSrc wItems wChans⟩).2.2.1 =
        aovSpec (transform_and_load wSrc aSrc wItems wChans)) ∧
    (((transform_and_load wSrcNC ⟨[], true⟩ wItems wChans).rows.filter
        (fun r => r.status == "completed")) = [] →
      (get_metrics ⟨transform_and_load wSrcNC ⟨[], true⟩ wItems wChans⟩).2.2.1 =
        0) :=
  ⟨by decide,
    (C2_aov_group_mean ⟨transform_and_load wSrc aSrc wItems wChans⟩
      (by decide)).1,
    (C2_aov_group_mean ⟨transform_and_load wSrcNC ⟨[], true⟩ wItems wChans⟩
      (by decide)).2⟩

/-- Claim C3: on a nonempty dataset, `cancel_rate` is computed over
order-grain rows obtained by a structural drop-duplicate on `order_id`
(not filtered by status first): the number of distinct orders whose
surviving (first-occurrence) row is cancelled over the number of distinct
orders, times 100. -/
theorem C3_cancel_rate_order_grain (a : KPIAnalyzer) (h : a.df.rows ≠ []) :
    (get_metrics a).2.2.2.1 = cancelRateSpec a.df := by
  have hne : ¬ a.df.rows.isEmpty = true := by
    simpa [List.isEmpty_iff] using h
  rw [get_metrics_cancel a hne]
  have huniq : dedupBy (fun r : ReconRow => r.order_id) a.df.rows ≠ [] :=
    dedupBy_ne_nil _ h
  have hkeys : (dedupBy (fun r : ReconRow => r.order_id) a.df.rows).map
      (fun r : ReconRow => r.order_id) =
      dedupBy id (a.df.rows.map ReconRow.order_id) :=
    map_key_dedupBy _ _
  have hlen : (dedupBy id (a.df.rows.map ReconRow.order_id)).length =
      (dedupBy (fun r : ReconRow => r.order_id) a.df.rows).length := by
    rw [← hkeys, List.length_map]
  have hfiltered :
      (dedupBy id (a.df.rows.map ReconRow.order_id)).filter (fun oid =>
          match a.df.rows.find? (fun r => r.order_id == oid) with
          | some r => r.status == "cancelled"
          | none => false) =
        ((dedupBy (fun r : ReconRow => r.order_id) a.df.rows).filter
          (fun r => r.status == "cancelled")).map
            (fun r : ReconRow => r.order_id) := by
    rw [← hkeys, List.filter_map]
    congr 1
    apply List.filter_congr
    intro u hu
    have hfind := find?_of_mem_dedupBy hu
    simp only [Function.comp]
    rw [hfind]
  have hpos : 0 < (dedupBy (fun r : ReconRow => r.order_id)
      a.df.rows).length := List.length_pos.mpr huniq
  rw [if_pos hpos]
  unfold cancelRateSpec
  rw [if_neg (by omega)]
  rw [hfiltered, hlen, List.length_map]

theorem C3_cancel_rate_order_grain_witness :
    (transform_and_load wSrc aSrc wItems wChans).rows ≠ [] ∧
    (get_metrics ⟨transform_and_load wSrc aSrc wItems wChans⟩).2.2.2.1 =
      cancelRateSpec (transform_and_load wSrc aSrc wItems wChans) :=
  ⟨by decide, C3_cancel_rate_order_grain
    ⟨transform_and_load wSrc aSrc wItems wChans⟩ (by decide)⟩

theorem get_metrics_sku (a : KPIAnalyzer) (h : ¬ a.df.rows.isEmpty = true) :
    (get_metrics a).2.2.2.2 =
      if a.df.hasSku then
        match sortedSkuTable a.df.rows with
        | [] => "N/A"
        | p :: _ => mkSkuLabel p.1 p.2
      else "N/A" := by
  unfold get_metrics
  rw [if_neg h]

/-- Claim C4 counterexample: a nonempty reconciled dataset with a `sku`
column whose only row's sku is null (the joined item did not match).  The
sku grouping is empty, so the label is `"N/A"`: no top SKU exists and no
`"{sku} ({quantity})"` label from the grouping is produced, although the
dataset is nonempty and has the column. -/
theorem C4_top_sku_counterexample :
    (transform_and_load ⟨[⟨1, 1, 10, "completed", some 0, none⟩], true⟩
        ⟨[], true⟩ [⟨2, "SKU9", 1, 5⟩] []).rows ≠ [] ∧
    (transform_and_load ⟨[⟨1, 1, 10, "completed", some 0, none⟩], true⟩
        ⟨[], true⟩ [⟨2, "SKU9", 1, 5⟩] []).hasSku = true ∧
    (get_metrics ⟨transform_and_load
        ⟨[⟨1, 1, 10, "completed", some 0, none⟩], true⟩
        ⟨[], true⟩ [⟨2, "SKU9", 1, 5⟩] []⟩).2.2.2.2 = "N/A" ∧
    ¬ ∃ s q, (s, q) ∈ skuTable (transform_and_load
        ⟨[⟨1, 1, 10, "completed", some 0, none⟩], true⟩
        ⟨[], true⟩ [⟨2, "SKU9", 1, 5⟩] []).rows ∧
      (get_metrics ⟨transform_and_load
        ⟨[⟨1, 1, 10, "completed", some 0, none⟩], true⟩
        ⟨[], true⟩ [⟨2, "SKU9", 1, 5⟩] []⟩).2.2.2.2 = mkSkuLabel s q := by
  refine ⟨by decide, by decide, by decide, ?_⟩
  rintro ⟨s, q, hmem, -⟩
  have he : skuTable (transform_and_load
      ⟨[⟨1, 1, 10, "completed", some 0, none⟩], true⟩
      ⟨[], true⟩ [⟨2, "SKU9", 1, 5⟩] []).rows = [] := by decide
  rw [he] at hmem
  exact absurd hmem (List.not_mem_nil _)

/-- Claim C4 (amended): on an empty dataset, or without a `sku` column,
the label is `"N/A"`; on a nonempty dataset with a `sku` column and at
least one non-null sku, the label is `"{sku} ({quantity})"` for a pair of
the sku grouping whose summed quantity is maximal (the head of the
descending stable sort — deterministic). -/
theorem C4_top_sku_label (a : KPIAnalyzer) :
    (a.df.rows = [] → (get_metrics a).2.2.2.2 = "N/A") ∧
    (a.df.hasSku = false → (get_metrics a).2.2.2.2 = "N/A") ∧
    (a.df.rows ≠ [] → a.df.hasSku = true → skuTable a.df.rows ≠ [] →
      ∃ s q, (get_metrics a).2.2.2.2 = mkSkuLabel s q ∧
        (s, q) ∈ skuTable a.df.rows ∧
        ∀ p ∈ skuTable a.df.rows, p.2 ≤ q) := by
  refine ⟨?_, ?_, ?_⟩
  · intro h
    unfold get_metrics
    rw [if_pos (by simp [h])]
  · intro hs
    by_cases h : a.df.rows.isEmpty = true
    · unfold get_metrics
      rw [if_pos h]
    · rw [get_metrics_sku a h, hs]
      simp
  · intro hne hs htab
    have h : ¬ a.df.rows.isEmpty = true := by
      simpa [List.isEmpty_iff] using hne
    rw [get_metrics_sku a h, hs, if_pos rfl]
    rcases hsort : sortedSkuTable a.df.rows with _ | ⟨p, t⟩
    · exfalso
      apply htab
      have := List.perm_insertionSort skuGe (skuTable a.df.rows)
      rw [show List.insertionSort skuGe (skuTable a.df.rows) =
        sortedSkuTable a.df.rows from rfl, hsort] at this
      exact (this.symm).eq_nil
    · refine ⟨p.1, p.2, rfl, ?_, ?_⟩
      · have hp : p ∈ sortedSkuTable a.df.rows := by
          rw [hsort]
          exact List.mem_cons_self _ _
        exact (List.perm_insertionSort skuGe (skuTable a.df.rows)).mem_iff.mp
          hp
      · intro p' hp'
        have hp'mem : p' ∈ sortedSkuTable a.df.rows :=
          (List.perm_insertionSort skuGe (skuTable a.df.rows)).mem_iff.mpr hp'
        rw [hsort] at hp'mem
        have hsorted : List.Sorted skuGe (sortedSkuTable a.df.rows) :=
          List.sorted_insertionSort skuGe (skuTable a.df.rows)
        rw [hsort] at hsorted
        rcases List.mem_cons.mp hp'mem with h | h
        · rw [h]
        · exact List.rel_of_sorted_cons hsorted p' h

theorem C4_top_sku_label_witness :
    (transform_and_load wSrc aSrc wItems wChans).rows ≠ [] ∧
    (transform_and_load wSrc aSrc wItems wChans).hasSku = true ∧
    skuTable (transform_and_load wSrc aSrc wItems wChans).rows ≠ [] ∧
    (∃ s q, (get_metrics ⟨transform_and_load wSrc aSrc wItems
        wChans⟩).2.2.2.2 = mkSkuLabel s q ∧
      (s, q) ∈ skuTable (transform_and_load wSrc aSrc wItems wChans).rows ∧
      ∀ p ∈ skuTable (transform_and_load wSrc aSrc wItems wChans).rows,
        p.2 ≤ q) :=
  ⟨by decide, by decide, by decide,
    (C4_top_sku_label ⟨transform_and_load wSrc aSrc wItems wChans⟩).2.2
      (by decide) (by decide) (by decide)⟩

/-- Claim C7: in the reconciled output, `line_total` is always the
(NaN-propagating) product of the joined `quantity` and `unit_price`
cells, recomputed — for every input, in particular for every value of a
`line_total`-like column carried in the raw order sources. -/
theorem C7_line_total_derived (web app : OrdersSrc) (items : List ItemRow)
    (channels : List ChannelRow) (r : ReconRow)
    (hr : r ∈ (transform_and_load web app items channels).rows) :
    r.line_total = omulQ r.quantity r.unit_price := by
  unfold transform_and_load at hr
  by_cases hv : (validSources web app).isEmpty
  · rw [if_pos hv] at hr
    simp [emptyDF] at hr
  · rw [if_neg hv] at hr
    rcases finalRows_provenance hr with ⟨o, _, _, hlt, _⟩
    exact hlt

theorem C7_line_total_derived_witness :
    wRow1 ∈ (transform_and_load wSrc aSrc wItems wChans).rows ∧
    wRow1.line_total = omulQ wRow1.quantity wRow1.unit_price :=
  ⟨wRow1_mem, C7_line_total_derived wSrc aSrc wItems wChans wRow1 wRow1_mem⟩

/-- Claim C6: when the items dataset is empty and some order-header source
is nonempty, no join is attempted: the output has no `sku` column, every
row's `quantity` and `unit_price` are forced to `0` (not null), hence
every `line_total` is `0` and the revenue metric over that output is `0`. -/
theorem C6_empty_items_forced_zero (web app : OrdersSrc)
    (channels : List ChannelRow) (h : web.rows ≠ [] ∨ app.rows ≠ []) :
    (transform_and_load web app [] channels).hasSku = false ∧
    (∀ r ∈ (transform_and_load web app [] channels).rows,
      r.quantity = some 0 ∧ r.unit_price = some 0 ∧ r.line_total = some 0) ∧
    (get_metrics ⟨transform_and_load web app [] channels⟩).1 = 0 := by
  have hrow : ∀ r ∈ (transform_and_load web app [] channels).rows,
      r.quantity = some 0 ∧ r.unit_price = some 0 ∧ r.line_total = some 0 := by
    intro r hr
    unfold transform_and_load at hr
    by_cases hv : (validSources web app).isEmpty
    · rw [if_pos hv] at hr
      simp [emptyDF] at hr
    · rw [if_neg hv] at hr
      rcases finalRows_provenance hr with ⟨o, _, _, hlt, hcase⟩
      rcases hcase with ⟨_, hq, hp⟩ | ⟨hne, _⟩ | ⟨it, hit, _⟩
      · refine ⟨hq, hp, ?_⟩
        rw [hlt, hq, hp]
        simp [omulQ]
      · exact absurd rfl hne
      · simp at hit
  refine ⟨?_, hrow, ?_⟩
  · unfold transform_and_load
    by_cases hv : (validSources web app).isEmpty
    · rw [if_pos hv]
      rfl
    · rw [if_neg hv]
      rfl
  · unfold get_metrics
    by_cases he : (transform_and_load web app [] channels).rows.isEmpty
    · rw [if_pos he]
    · rw [if_neg he]
      simp only []
      apply osumQ_eq_zero
      intro x hx
      rcases List.mem_map.mp hx with ⟨r, hrv, hxe⟩
      have hr := List.mem_filter.mp hrv
      exact Or.inl (hxe ▸ (hrow r hr.1).2.2)

theorem C6_empty_items_forced_zero_witness :
    (wSrc.rows ≠ [] ∨ aSrc.rows ≠ []) ∧
    ((transform_and_load wSrc aSrc [] wChans).hasSku = false ∧
      (∀ r ∈ (transform_and_load wSrc aSrc [] wChans).rows,
        r.quantity = some 0 ∧ r.unit_price = some 0 ∧
          r.line_total = some 0) ∧
      (get_metrics ⟨transform_and_load wSrc aSrc [] wChans⟩).1 = 0) :=
  ⟨Or.inl (by decide), C6_empty_items_forced_zero wSrc aSrc wChans
    (Or.inl (by decide))⟩

/-- Claim C5 counterexample: the reconciled dataset of an all-empty run is
the column-less empty frame, and `filter` on it with a concrete channel
indexes the missing `channel_name` column — a `KeyError` (`none`), not a
non-error result. -/
theorem C5_filter_raises_on_columnless_empty :
    KPIAnalyzer.filter ⟨transform_and_load ⟨[], false⟩ ⟨[], false⟩ [] []⟩
      "Website" [] = none := by decide

/-- Claim C5 (amended): reconcile with all order-header sources empty
yields the empty frame; on any empty dataset `get_metrics` is
`(0,0,0,0,"N/A")` and both series are empty; `filter` with the sentinel
channel and empty range succeeds, and `filter` with any channel and range
succeeds whenever the wrapped frame has the `channel_name` and
`order_date` columns. -/
theorem C5_empty_degeneracy (web app : OrdersSrc) (items : List ItemRow)
    (channels : List ChannelRow) (df : ReconDF)
    (hw : web.rows = []) (ha : app.rows = []) (hdf : df.rows = []) :
    transform_and_load web app items channels = emptyDF ∧
    get_metrics ⟨df⟩ = (0, 0, 0, 0, "N/A") ∧
    get_daily_revenue ⟨df⟩ = some [] ∧
    get_channel_dist ⟨df⟩ = some [] ∧
    KPIAnalyzer.filter ⟨df⟩ "All" [] = some ⟨df⟩ ∧
    (∀ c dr, df.hasChannelName = true → df.hasOrderDate = true →
      (KPIAnalyzer.filter ⟨df⟩ c dr).isSome = true) := by
  refine ⟨?_, ?_, ?_, ?_, ?_, ?_⟩
  · unfold transform_and_load
    rw [if_pos (by simp [validSources, hw, ha])]
  · unfold get_metrics
    rw [if_pos (by simp [hdf])]
  · unfold get_daily_revenue
    rw [if_pos (by simp [hdf])]
  · unfold get_channel_dist
    rw [if_pos (by simp [hdf])]
  · simp [KPIAnalyzer.filter, filterDF, applyChannelFilter, applyDateFilter]
  · intro c dr hcn hod
    unfold KPIAnalyzer.filter filterDF applyChannelFilter applyDateFilter
    by_cases hc : c = "All" <;>
      rcases dr with _ | ⟨s, _ | ⟨e, _ | ⟨x, xs⟩⟩⟩ <;>
      simp [hc, hcn, hod]

theorem applyDateFilter_nil (df : ReconDF) : applyDateFilter df [] = some df :=
  rfl

theorem applyChannelFilter_all (df : ReconDF) :
    applyChannelFilter df "All" = some df := by
  simp [applyChannelFilter]

theorem applyChannelFilter_ne (df : ReconDF) {c : String} (hc : c ≠ "All") :
    applyChannelFilter df c =
      if df.hasChannelName then
        some { df with
          rows := df.rows.filter (fun r => r.channel_name == some c) }
      else none := by
  simp [applyChannelFilter, hc]

theorem applyDateFilter_pair (df : ReconDF) (s e : Int) :
    applyDateFilter df [s, e] =
      if df.hasOrderDate then
        some { df with
          rows := df.rows.filter
            (fun r => decide (s ≤ r.order_date) && decide (r.order_date ≤ e)) }
      else none := rfl

/-- Claim C8: for any dataset, channel `c ≠ "All"` and two-endpoint date
range, filtering by channel then by date equals filtering by both at once,
and equals the two filters applied in the opposite order (AND semantics,
order-independent) — including agreement on the error (`KeyError`) cases. -/
theorem C8_filter_composition (a : KPIAnalyzer) (c : String) (s e : Int)
    (hc : c ≠ "All") :
    (KPIAnalyzer.filter a c []).bind
        (fun b => KPIAnalyzer.filter b "All" [s, e]) =
      KPIAnalyzer.filter a c [s, e] ∧
    (KPIAnalyzer.filter a "All" [s, e]).bind
        (fun b => KPIAnalyzer.filter b c []) =
      KPIAnalyzer.filter a c [s, e] := by
  constructor
  · rcases hch : applyChannelFilter a.df c with _ | t
    · simp [KPIAnalyzer.filter, filterDF, hch]
    · simp [KPIAnalyzer.filter, filterDF, hch, applyDateFilter_nil,
        applyChannelFilter_all]
  · have hcomm : ∀ (l : List ReconRow),
        (l.filter (fun r => decide (s ≤ r.order_date) &&
            decide (r.order_date ≤ e))).filter
          (fun r => r.channel_name == some c) =
        (l.filter (fun r => r.channel_name == some c)).filter
          (fun r => decide (s ≤ r.order_date) && decide (r.order_date ≤ e)) := by
      intro l
      rw [List.filter_filter, List.filter_filter]
      exact List.filter_congr (fun r _ => Bool.and_comm _ _)
    by_cases hod : a.df.hasOrderDate <;> by_cases hcn : a.df.hasChannelName <;>
      simp [KPIAnalyzer.filter, filterDF, applyChannelFilter_all,
        applyChannelFilter_ne _ hc, applyDateFilter_pair, applyDateFilter_nil,
        hod, hcn, hcomm]

theorem C8_filter_composition_witness :
    ("Website" ≠ "All") ∧
    ((KPIAnalyzer.filter ⟨emptyDF⟩ "Website" []).bind
        (fun b => KPIAnalyzer.filter b "All" [3, 7]) =
      KPIAnalyzer.filter ⟨emptyDF⟩ "Website" [3, 7] ∧
    (KPIAnalyzer.filter ⟨emptyDF⟩ "All" [3, 7]).bind
        (fun b => KPIAnalyzer.filter b "Website" []) =
      KPIAnalyzer.filter ⟨emptyDF⟩ "Website" [3, 7]) :=
  ⟨by decide, C8_filter_composition ⟨emptyDF⟩ "Website" 3 7 (by decide)⟩

/-- Claim C9: `filter` never mutates the receiver and returns an
independent view: at the store level it allocates a fresh reference, the
receiver's frame reads back unchanged after the call, and writing any
frame through the returned reference leaves the receiver's frame
unchanged. -/
theorem C9_filter_no_mutation (st : Store) (ref : Nat) (c : String)
    (dr : List Int) (st' : Store) (ref' : Nat)
    (href : ref < st.frames.length)
    (h : filterAlloc st ref c dr = some (st', ref')) :
    st'.read ref = st.read ref ∧ ref' ≠ ref ∧
    ∀ df', (Store.write st' ref' df').read ref = st.read ref := by
  unfold filterAlloc at h
  rcases hf : filterDF (st.read ref) c dr with _ | df
  · rw [hf] at h
    exact Option.noConfusion h
  · rw [hf] at h
    simp only [Option.map_some', Option.some.injEq, Prod.mk.injEq] at h
    obtain ⟨hst, hr⟩ := h
    subst hst
    subst hr
    have hread : (⟨st.frames ++ [df]⟩ : Store).read ref = st.read ref := by
      unfold Store.read
      simp only [List.getD_eq_getElem?_getD, List.getElem?_append,
        if_pos href]
    refine ⟨hread, Nat.ne_of_gt href, ?_⟩
    intro df'
    unfold Store.write Store.read
    simp only [List.getD_eq_getElem?_getD]
    rw [List.getElem?_set_ne (Nat.ne_of_gt href)]
    rw [List.getElem?_append, if_pos href]

theorem C9_filter_no_mutation_witness :
    (0 < (⟨[emptyDF]⟩ : Store).frames.length) ∧
    (filterAlloc ⟨[emptyDF]⟩ 0 "All" [] =
      some (⟨[emptyDF, emptyDF]⟩, 1)) ∧
    ((⟨[emptyDF, emptyDF]⟩ : Store).read 0 = (⟨[emptyDF]⟩ : Store).read 0 ∧
      (1 : Nat) ≠ 0 ∧
      ∀ df', (Store.write ⟨[emptyDF, emptyDF]⟩ 1 df').read 0 =
        (⟨[emptyDF]⟩ : Store).read 0) :=
  ⟨by decide, by decide,
    C9_filter_no_mutation ⟨[emptyDF]⟩ 0 "All" [] ⟨[emptyDF, emptyDF]⟩ 1
      (by decide) (by decide)⟩

theorem get_metrics_rev (a : KPIAnalyzer) (h : ¬ a.df.rows.isEmpty = true) :
    (get_metrics a).1 =
      osumQ ((a.df.rows.filter (fun r => r.status == "completed")).map
        ReconRow.line_total) := by
  unfold get_metrics
  rw [if_neg h]

theorem get_metrics_ret (a : KPIAnalyzer) (h : ¬ a.df.rows.isEmpty = true) :
    (get_metrics a).2.1 =
      if 0 < osumZ (a.df.rows.map ReconRow.quantity) then
        (osumZ ((a.df.rows.filter (fun r => r.status == "returned")).map
            ReconRow.quantity) : ℚ) /
          (osumZ (a.df.rows.map ReconRow.quantity) : ℚ) * 100
      else 0 := by
  unfold get_metrics
  rw [if_neg h]

theorem dedupedOrders_of_empty_sources {web app : OrdersSrc}
    (hv : (validSources web app).isEmpty = true) :
    dedupedOrders web app = [] := by
  have h0 : validSources web app = [] := List.isEmpty_iff.mp hv
  have hraw : rawOrders web app = [] := by simp [rawOrders, h0]
  rw [dedupedOrders_eq, hraw]
  by_cases hU : rawHasUpdatedAt web app
  · rw [if_pos hU]
    rfl
  · rw [if_neg hU]
    rfl

theorem dailySum_append_null (rows : List ReconRow) (x : ReconRow) (d : Int)
    (hxl : x.line_total = none) :
    dailySum (rows ++ [x]) d = dailySum rows d := by
  show osumQ ((((rows ++ [x]).filter (fun r => r.status == "completed")).filter
      (fun r => r.order_date == d)).map ReconRow.line_total) =
    osumQ (((rows.filter (fun r => r.status == "completed")).filter
      (fun r => r.order_date == d)).map ReconRow.line_total)
  rw [List.filter_filter, List.filter_filter]
  exact osumQ_filter_append_null rows x _ hxl

theorem channelSum_append_null (rows : List ReconRow) (x : ReconRow)
    (cn : String) (hxl : x.line_total = none) :
    channelSum (rows ++ [x]) cn = channelSum rows cn := by
  show osumQ ((((rows ++ [x]).filter (fun r => r.status == "completed")).filter
      (fun r => r.channel_name == some cn)).map ReconRow.line_total) =
    osumQ (((rows.filter (fun r => r.status == "completed")).filter
      (fun r => r.channel_name == some cn)).map ReconRow.line_total)
  rw [List.filter_filter, List.filter_filter]
  exact osumQ_filter_append_null rows x _ hxl

/-- Claim C10: when the items table is nonempty, an order with no matching
item survives as a row with null `quantity`, `unit_price` and `line_total`
(not zero), and such null cells contribute nothing to any of the sums of
`get_metrics` (revenue, the return-rate numerator and denominator) or to
any per-date / per-channel group sum of the two series: appending a
null-valued row changes none of them. -/
theorem C10_null_item_rows (web app : OrdersSrc) (items : List ItemRow)
    (channels : List ChannelRow) (o : OrderRow) (df : ReconDF) (x : ReconRow)
    (hitems : items ≠ []) (ho : o ∈ dedupedOrders web app)
    (hm : items.filter (fun it => it.order_id == o.order_id) = [])
    (hxq : x.quantity = none) (hxl : x.line_total = none) :
    (∃ r ∈ (transform_and_load web app items channels).rows,
      r.order_id = o.order_id) ∧
    (∀ r ∈ (transform_and_load web app items channels).rows,
      r.order_id = o.order_id →
        r.quantity = none ∧ r.unit_price = none ∧ r.line_total = none) ∧
    (get_metrics ⟨{ df with rows := df.rows ++ [x] }⟩).1 =
      (get_metrics ⟨df⟩).1 ∧
    (get_metrics ⟨{ df with rows := df.rows ++ [x] }⟩).2.1 =
      (get_metrics ⟨df⟩).2.1 ∧
    (∀ d, dailySum (df.rows ++ [x]) d = dailySum df.rows d) ∧
    (∀ cn, channelSum (df.rows ++ [x]) cn = channelSum df.rows cn) := by
  have hv : ¬ (validSources web app).isEmpty = true := by
    intro hv
    rw [dedupedOrders_of_empty_sources hv] at ho
    exact absurd ho (List.not_mem_nil _)
  have happ : ¬ (df.rows ++ [x]).isEmpty = true := by
    simp
  refine ⟨?_, ?_, ?_, ?_, ?_, ?_⟩
  · unfold transform_and_load
    rw [if_neg hv]
    exact finalRows_exists_of_order ho
  · intro r hr hid
    unfold transform_and_load at hr
    rw [if_neg hv] at hr
    rcases finalRows_provenance hr with ⟨o', ho', hh, hlt, hcase⟩
    have hoid : o'.order_id = o.order_id := by
      have : r.order_id = o'.order_id := congrArg Prod.fst hh
      rw [← this, hid]
    rcases hcase with ⟨hi, -⟩ | ⟨-, -, hq, hp, -⟩ | ⟨it, hit, -⟩
    · exact absurd hi hitems
    · refine ⟨hq, hp, ?_⟩
      rw [hlt, hq]
      exact omulQ_none_left _
    · exfalso
      rw [show (fun it : ItemRow => it.order_id == o'.order_id) =
        (fun it : ItemRow => it.order_id == o.order_id) from by
          funext it
          rw [hoid], hm] at hit
      exact absurd hit (List.not_mem_nil _)
  · rw [get_metrics_rev _ happ]
    have hl : ({ df with rows := df.rows ++ [x] } : ReconDF).rows =
        df.rows ++ [x] := rfl
    rw [hl] at *
    rw [osumQ_filter_append_null df.rows x _ hxl]
    by_cases hdf : df.rows.isEmpty = true
    · have h0 : df.rows = [] := List.isEmpty_iff.mp hdf
      unfold get_metrics
      rw [if_pos hdf, h0]
      rfl
    · rw [get_metrics_rev _ hdf]
  · rw [get_metrics_ret _ happ]
    have hl : ({ df with rows := df.rows ++ [x] } : ReconDF).rows =
        df.rows ++ [x] := rfl
    rw [hl] at *
    rw [osumZ_filter_append_null df.rows x _ hxq,
      osumZ_map_append_null df.rows x hxq]
    by_cases hdf : df.rows.isEmpty = true
    · have h0 : df.rows = [] := List.isEmpty_iff.mp hdf
      unfold get_metrics
      rw [if_pos hdf, h0]
      rfl
    · rw [get_metrics_ret _ hdf]
  · intro d
    exact dailySum_append_null df.rows x d hxl
  · intro cn
    exact channelSum_append_null df.rows x cn hxl

theorem C10_null_item_rows_witness :
    wItems ≠ [] ∧ wOrd3 ∈ dedupedOrders wSrc aSrc ∧
    wItems.filter (fun it => it.order_id == wOrd3.order_id) = [] ∧
    wRow3.quantity = none ∧ wRow3.line_total = none ∧
    ((∃ r ∈ (transform_and_load wSrc aSrc wItems wChans).rows,
        r.order_id = wOrd3.order_id) ∧
      (∀ r ∈ (transform_and_load wSrc aSrc wItems wChans).rows,
        r.order_id = wOrd3.order_id →
          r.quantity = none ∧ r.unit_price = none ∧ r.line_total = none) ∧
      (get_metrics ⟨{ transform_and_load wSrc aSrc wItems wChans with
          rows := (transform_and_load wSrc aSrc wItems wChans).rows ++
            [wRow3] }⟩).1 =
        (get_metrics ⟨transform_and_load wSrc aSrc wItems wChans⟩).1 ∧
      (get_metrics ⟨{ transform_and_load wSrc aSrc wItems wChans with
          rows := (transform_and_load wSrc aSrc wItems wChans).rows ++
            [wRow3] }⟩).2.1 =
        (get_metrics ⟨transform_and_load wSrc aSrc wItems wChans⟩).2.1 ∧
      (∀ d, dailySum ((transform_and_load wSrc aSrc wItems wChans).rows ++
          [wRow3]) d =
        dailySum (transform_and_load wSrc aSrc wItems wChans).rows d) ∧
      (∀ cn, channelSum ((transform_and_load wSrc aSrc wItems
          wChans).rows ++ [wRow3]) cn =
        channelSum (transform_and_load wSrc aSrc wItems wChans).rows cn)) :=
  ⟨by decide, by decide, by decide, rfl, rfl,
    C10_null_item_rows wSrc aSrc wItems wChans wOrd3
      (transform_and_load wSrc aSrc wItems wChans) wRow3
      (by decide) (by decide) (by decide) rfl rfl⟩

theorem C5_empty_degeneracy_witness :
    (⟨[], false⟩ : OrdersSrc).rows = [] ∧ emptyDF.rows = [] ∧
    (transform_and_load ⟨[], false⟩ ⟨[], false⟩ [] [] = emptyDF ∧
      get_metrics ⟨emptyDF⟩ = (0, 0, 0, 0, "N/A") ∧
      get_daily_revenue ⟨emptyDF⟩ = some [] ∧
      get_channel_dist ⟨emptyDF⟩ = some [] ∧
      KPIAnalyzer.filter ⟨emptyDF⟩ "All" [] = some ⟨emptyDF⟩ ∧
      (∀ c dr, emptyDF.hasChannelName = true → emptyDF.hasOrderDate = true →
        (KPIAnalyzer.filter ⟨emptyDF⟩ c dr).isSome = true)) :=
  ⟨rfl, rfl, C5_empty_degeneracy ⟨[], false⟩ ⟨[], false⟩ [] [] emptyDF
    rfl rfl rfl⟩

end Orders
